import Mathlib

/-!
Verification development for the Streamdash dashboard core
(src/main.py): the bounded multi-symbol time-series buffer, the
historical-backfill / live-append refresh policy, and the auto-refresh
trigger.  Prices, timestamps and elapsed times are modelled as rationals,
Python datetimes as naive rational "epoch seconds", and the external
yfinance provider as explicit function parameters (a historical source and
a per-symbol ticker-info source).  Per-symbol fetch exceptions are modelled
as the provider returning no data for that symbol, matching the
log-and-continue handlers in the code.
-/

namespace Streamdash

/-- One price sample, as the dicts built in fetch_historical_data and
fetch_live_data (keys: symbol, timestamp, price, volume, is_historical). -/
structure Observation where
  symbol : String
  timestamp : ℚ
  price : ℚ
  volume : ℤ
  is_historical : Bool
deriving DecidableEq

/-- Python collections.deque created with a fixed maxlen, as in
deque(maxlen=max_points). -/
structure PyDeque (α : Type) where
  maxlen : Nat
  items : List α
deriving DecidableEq

/-- deque.append for a maxlen-bounded deque: the new element goes on the
right; if the deque is full the leftmost (oldest) element is evicted. -/
def PyDeque.append {α : Type} (d : PyDeque α) (x : α) : PyDeque α :=
  ⟨d.maxlen, (d.items ++ [x]).drop (d.items.length + 1 - d.maxlen)⟩

/-- The last n elements of a list, in order. -/
def lastN {α : Type} (n : Nat) (l : List α) : List α :=
  l.drop (l.length - n)

/-- Lookup in an insertion-ordered association list, as Python dict access
symbol in d / d[symbol]. -/
def alistLookup {β : Type} : List (String × β) → String → Option β
  | [], _ => none
  | p :: ps, sym => if p.1 = sym then some p.2 else alistLookup ps sym

/-- The global price_data dict: symbol to bounded deque of observations. -/
abbrev Store : Type := List (String × PyDeque Observation)

/-- storeLookup st sym models price_data[sym]. -/
def storeLookup (st : Store) (sym : String) : Option (PyDeque Observation) :=
  alistLookup st sym

/-- storeContains st sym models the test sym in price_data. -/
def storeContains (st : Store) (sym : String) : Bool :=
  (storeLookup st sym).isSome

/-- price_data[sym].append(x): mutate the deque stored at key sym. -/
def storeAppendObs : Store → String → Observation → Store
  | [], _, _ => []
  | p :: ps, sym, x =>
    if p.1 = sym then (p.1, p.2.append x) :: ps else p :: storeAppendObs ps sym x

/-- Floor of a rational, written out so the kernel can evaluate it. -/
def ratFloor (q : ℚ) : ℤ :=
  q.num.fdiv q.den

/-- Round-half-to-even of a rational to an integer, the rounding Python's
round applies to the scaled value. -/
def roundHalfEven (q : ℚ) : ℤ :=
  if q - ratFloor q < 1 / 2 then ratFloor q
  else if 1 / 2 < q - ratFloor q then ratFloor q + 1
  else if ratFloor q % 2 = 0 then ratFloor q else ratFloor q + 1

/-- Python round(x, 2): round to two decimal places, ties to even. -/
def round2 (q : ℚ) : ℚ :=
  (roundHalfEven (q * 100) : ℚ) / 100

/-- One row of a provider history frame: naive timestamp, Close, Volume
(none models a NaN volume). -/
structure HistRow where
  timestamp : ℚ
  close : ℚ
  volume : Option ℤ
deriving DecidableEq

/-- The per-row dict built in fetch_historical_data: price is the rounded
Close, a NaN volume becomes 0, and the point is tagged is_historical. -/
def histRowToObs (sym : String) (r : HistRow) : Observation :=
  ⟨sym, r.timestamp, round2 r.close, r.volume.getD 0, true⟩

/-- fetch_historical_data: one entry per requested symbol whose history
came back non-empty; a per-symbol exception or an empty frame leaves that
symbol out of the result.  histSource sym is the provider's history for
sym, with [] covering both failure and no data. -/
def fetchHistoricalData (histSource : String → List HistRow)
    (symbols : List String) : List (String × List Observation) :=
  symbols.foldl
    (fun acc sym =>
      if (histSource sym).isEmpty then acc
      else acc ++ [(sym, (histSource sym).map (histRowToObs sym))])
    []

/-- The fields of ticker.info and the intraday history consulted by
fetch_live_data.  none models a missing key (or None value). -/
structure TickerInfo where
  currentPrice : Option ℚ
  regularMarketPrice : Option ℚ
  volume : Option ℤ
  intraday : List HistRow
deriving DecidableEq

/-- Python truthiness of an optional float: None and 0 are falsy. -/
def pyTruthy : Option ℚ → Bool
  | none => false
  | some x => decide (x ≠ 0)

/-- Python a or b on optional floats: b when a is falsy. -/
def pyOr (a b : Option ℚ) : Option ℚ :=
  if pyTruthy a then a else b

/-- The per-symbol body of fetch_live_data: currentPrice or
regularMarketPrice if truthy, else the last close of a 1d/1m intraday
history, else no entry.  Every produced dict carries the cycle-wide
current_time and is_historical=False. -/
def fetchLiveSymbol (now : ℚ) (sym : String) (info : TickerInfo) :
    Option Observation :=
  let cp := pyOr info.currentPrice info.regularMarketPrice
  if pyTruthy cp then
    some ⟨sym, now, round2 (cp.getD 0), info.volume.getD 0, false⟩
  else
    match info.intraday.getLast? with
    | some row => some ⟨sym, now, round2 row.close, row.volume.getD 0, false⟩
    | none => none

/-- The live outcome for one symbol: none when the ticker raised (infoOf
gives none) or every price fallback came up empty. -/
def liveResult (now : ℚ) (infoOf : String → Option TickerInfo)
    (sym : String) : Option Observation :=
  (infoOf sym).bind (fetchLiveSymbol now sym)

/-- fetch_live_data: current_time is captured once before the loop; each
symbol that yields a price contributes one entry keyed by that symbol,
failing symbols are skipped. -/
def fetchLiveData (now : ℚ) (infoOf : String → Option TickerInfo)
    (symbols : List String) : List (String × Observation) :=
  symbols.foldl
    (fun acc sym =>
      match liveResult now infoOf sym with
      | some obs => acc ++ [(sym, obs)]
      | none => acc)
    []

/-- initialize_symbol_data: if the symbol is absent from price_data, fetch
its history, create the deque (unconditionally, even when the fetch
returned nothing), then seed it with whatever points came back. -/
def initSymbolData (histSource : String → List HistRow) (maxPoints : Nat)
    (st : Store) (sym : String) : Store :=
  if storeContains st sym then st
  else
    let hd := fetchHistoricalData histSource [sym]
    let seeded : PyDeque Observation :=
      match alistLookup hd sym with
      | some pts => pts.foldl PyDeque.append ⟨maxPoints, []⟩
      | none => ⟨maxPoints, []⟩
    st ++ [(sym, seeded)]

/-- The first loop of update_price_data: initialize every tracked symbol
that is not yet in price_data. -/
def initNewSymbols (histSource : String → List HistRow) (maxPoints : Nat)
    (st : Store) (symbols : List String) : Store :=
  symbols.foldl
    (fun s sym =>
      if storeContains s sym then s else initSymbolData histSource maxPoints s sym)
    st

/-- The second loop of update_price_data: append each fetched live price
to its symbol's deque (guarded by sym in price_data). -/
def applyLive (st : Store) (prs : List (String × Observation)) : Store :=
  prs.foldl
    (fun s p => if storeContains s p.1 then storeAppendObs s p.1 p.2 else s)
    st

/-- update_price_data: historical initialization for new symbols first,
then the live fetch-and-append for the whole batch. -/
def updatePriceData (histSource : String → List HistRow)
    (infoOf : String → Option TickerInfo) (now : ℚ) (maxPoints : Nat)
    (st : Store) (symbols : List String) : Store :=
  applyLive (initNewSymbols histSource maxPoints st symbols)
    (fetchLiveData now infoOf symbols)

/-- get_dataframe: flatten every symbol's buffered points into one row
list (the DataFrame rows), reading under the lock and copying rows. -/
def getDataframe (st : Store) : List Observation :=
  (st.map (fun p => p.2.items)).flatten

/-- get_dataframe paired with the store it leaves behind: the function
only reads price_data. -/
def getDataframeS (st : Store) : List Observation × Store :=
  (getDataframe st, st)

/-- The st.session_state fields involved in the refresh logic. -/
structure SessionState where
  symbols : List String
  backfilledSymbols : List String
  lastUpdate : ℚ
deriving DecidableEq

/-- The handler guarded by new_symbols != st.session_state.symbols: the
tracked list is replaced and initialized_symbols is cleared. -/
def symbolsChanged (ss : SessionState) (newSymbols : List String) :
    SessionState :=
  if newSymbols ≠ ss.symbols then ⟨newSymbols, [], ss.lastUpdate⟩ else ss

/-- The symbols-changed handler together with the price_data store, which
the handler does not touch. -/
def symbolsChangedStep (ss : SessionState) (st : Store)
    (newSymbols : List String) : SessionState × Store :=
  (symbolsChanged ss newSymbols, st)

/-- The auto-refresh check: when enabled, a poll tick runs
update_price_data iff now - last_update >= refresh_interval, and then
resets last_update to now.  Returns (fetched, new last_update). -/
def autoRefreshTick (auto : Bool) (refreshInterval : ℚ) (now lastUpdate : ℚ) :
    Bool × ℚ :=
  if auto then
    if refreshInterval ≤ now - lastUpdate then (true, now) else (false, lastUpdate)
  else (false, lastUpdate)

/-- One complete refresh (manual button or auto-refresh body):
update_price_data over the tracked symbols, then
st.session_state.last_update = datetime.now(), unconditionally. -/
def refreshCycle (histSource : String → List HistRow)
    (infoOf : String → Option TickerInfo) (now : ℚ) (maxPoints : Nat)
    (st : Store) (symbols : List String) (ss : SessionState) :
    Store × SessionState :=
  (updatePriceData histSource infoOf now maxPoints st symbols,
   ⟨ss.symbols, ss.backfilledSymbols, now⟩)

/-- Every observation sitting in a buffer carries the symbol key of that
buffer. -/
def WellTagged (st : Store) : Prop :=
  ∀ p ∈ st, ∀ o ∈ p.2.items, o.symbol = p.1

instance (st : Store) : Decidable (WellTagged st) := by
  unfold WellTagged
  infer_instance

/-! Concrete symbols, sources and stores used to instantiate the theorems. -/

def aaplSym : String := "AAPL"

def tslaSym : String := "TSLA"

def goodSym : String := "GOOD"

def badSym : String := "BAD"

def spySym : String := "SPY"

def xSym : String := "X"

def nodataSym : String := "NODATA"

/-- A provider whose historical fetch fails (or returns nothing) for every
symbol. -/
def histNone : String → List HistRow := fun _ => []

/-- A provider returning a single historical row for every symbol. -/
def histOne : String → List HistRow := fun _ => [⟨0, 1, none⟩]

def c2Store : Store := [(aaplSym, ⟨200, []⟩)]

def c4OldObs : Observation := ⟨tslaSym, 0, 100, 0, true⟩

/-- Store state after a first refresh: two symbols already buffered. -/
def c4Store : Store := [(aaplSym, ⟨200, []⟩), (tslaSym, ⟨200, [c4OldObs]⟩)]

/-- Fresh historical data available at the time of the re-add refresh. -/
def c4Hist : String → List HistRow := fun _ => [⟨5, 50, none⟩]

def c4Info : String → Option TickerInfo := fun _ => some ⟨some 10, none, none, []⟩

def c4LiveObs : Observation := ⟨tslaSym, 9, 10, 0, false⟩

def c4SS0 : SessionState := ⟨[aaplSym, tslaSym], [aaplSym, tslaSym], 0⟩

/-- Session state after dropping TSLA from the tracked list. -/
def c4SS1 : SessionState := symbolsChanged c4SS0 [aaplSym]

/-- Session state after re-adding TSLA to the tracked list. -/
def c4SS2 : SessionState := symbolsChanged c4SS1 [aaplSym, tslaSym]

def c5Hist : String → List HistRow :=
  fun _ => [⟨1, 10, none⟩, ⟨2, 11, none⟩, ⟨3, 12, none⟩, ⟨4, 13, none⟩, ⟨5, 14, none⟩]

def c5InfoOf : String → Option TickerInfo := fun _ => some ⟨some 15, none, none, []⟩

def c5LiveObs : Observation := ⟨spySym, 6, 15, 0, false⟩

def c6Store : Store :=
  [(goodSym, ⟨200, [⟨goodSym, 0, 1, 0, true⟩]⟩), (badSym, ⟨200, [⟨badSym, 0, 2, 0, true⟩]⟩)]

/-- Live fetch succeeding for GOOD and raising for BAD. -/
def c6InfoOf : String → Option TickerInfo :=
  fun s => if s = goodSym then some ⟨some 10, none, none, []⟩ else none

def c6SS : SessionState := ⟨[goodSym, badSym], [], 0⟩

def c8Store : Store :=
  [(aaplSym, ⟨3, [⟨aaplSym, 0, 1, 0, true⟩]⟩), (spySym, ⟨3, [⟨spySym, 0, 2, 0, false⟩]⟩)]

def c8Obs : Observation := ⟨spySym, 0, 2, 0, false⟩

/-- A ticker whose currentPrice is truthy but rounds to 0 at two decimals. -/
def c9Info : TickerInfo := ⟨some (1 / 1000), none, none, []⟩

def c9InfoOf : String → Option TickerInfo := fun _ => some c9Info

def c9WInfo : TickerInfo := ⟨some 0, some 5, none, []⟩

/-- Quote path for GOOD, intraday-fallback path for every other symbol. -/
def c10InfoOf : String → Option TickerInfo :=
  fun s => if s = goodSym then some ⟨some 10, none, none, []⟩
           else some ⟨none, none, none, [⟨1, 2, none⟩]⟩

def c10QuoteObs : Observation := ⟨goodSym, 7, 10, 0, false⟩

def c10FbObs : Observation := ⟨xSym, 7, 2, 0, false⟩

def c1Input : List ℚ := [100, 101, 102, 103]

/-! Lemmas about the bounded deque. -/

theorem lastN_of_length_le {α : Type} {n : Nat} {l : List α} (h : l.length ≤ n) :
    lastN n l = l := by
  simp [lastN, Nat.sub_eq_zero_of_le h]

theorem length_lastN {α : Type} (n : Nat) (l : List α) :
    (lastN n l).length = min n l.length := by
  rw [lastN, List.length_drop]
  omega

theorem drop_length_add {α : Type} (a t : List α) (k : Nat) :
    (a ++ t).drop (a.length + k) = t.drop k := by
  induction a with
  | nil => simp
  | cons y ys ih =>
    have h1 : ys.length + 1 + k = ys.length + k + 1 := by omega
    simp only [List.cons_append, List.length_cons, h1, List.drop_succ_cons]
    exact ih

theorem lastN_append_of_le {α : Type} {n : Nat} (a t : List α) (h : n ≤ t.length) :
    lastN n (a ++ t) = lastN n t := by
  unfold lastN
  rw [List.length_append]
  have h1 : a.length + t.length - n = a.length + (t.length - n) := by omega
  rw [h1, drop_length_add]

theorem lastN_lastN_append {α : Type} (n : Nat) (l m : List α) :
    lastN n (lastN n l ++ m) = lastN n (l ++ m) := by
  by_cases h : l.length ≤ n
  · rw [lastN_of_length_le h]
  · have h1 : n ≤ (lastN n l ++ m).length := by
      rw [List.length_append, length_lastN]
      omega
    have h2 : l.take (l.length - n) ++ lastN n l = l := by
      rw [lastN]
      exact List.take_append_drop _ l
    conv_rhs => rw [← h2, List.append_assoc]
    rw [lastN_append_of_le _ _ h1]

theorem pyDeque_append_eq {α : Type} (d : PyDeque α) (x : α) :
    d.append x = ⟨d.maxlen, lastN d.maxlen (d.items ++ [x])⟩ := by
  simp [PyDeque.append, lastN]

theorem foldl_pyDeque_append {α : Type} (xs : List α) (d : PyDeque α)
    (h : d.items.length ≤ d.maxlen) :
    xs.foldl PyDeque.append d = ⟨d.maxlen, lastN d.maxlen (d.items ++ xs)⟩ := by
  induction xs generalizing d with
  | nil =>
    obtain ⟨ml, its⟩ := d
    simp only [List.foldl_nil, List.append_nil]
    simp only at h
    rw [lastN_of_length_le h]
  | cons x xs ih =>
    rw [List.foldl_cons, pyDeque_append_eq, ih]
    · simp [lastN_lastN_append]
    · rw [length_lastN]
      exact Nat.min_le_left _ _

/-! Lemmas about association-list stores. -/

theorem alistLookup_append_ne {β : Type} (st : List (String × β)) {s sym : String}
    (d : β) (h : s ≠ sym) :
    alistLookup (st ++ [(s, d)]) sym = alistLookup st sym := by
  induction st with
  | nil => simp [alistLookup, h]
  | cons p ps ih =>
    by_cases hp : p.1 = sym <;> simp [alistLookup, hp, ih]

theorem alistLookup_append_self {β : Type} {st : List (String × β)} {sym : String}
    (d : β) (h : alistLookup st sym = none) :
    alistLookup (st ++ [(sym, d)]) sym = some d := by
  induction st with
  | nil => simp [alistLookup]
  | cons p ps ih =>
    by_cases hp : p.1 = sym
    · simp [alistLookup, hp] at h
    · simp only [alistLookup, hp, if_false] at h
      simp only [List.cons_append, alistLookup, hp, if_false]
      exact ih h

theorem storeContains_false_iff (st : Store) (sym : String) :
    storeContains st sym = false ↔ storeLookup st sym = none := by
  cases h : storeLookup st sym <;> simp [storeContains, h]

theorem storeContains_true_iff (st : Store) (sym : String) :
    storeContains st sym = true ↔ ∃ d, storeLookup st sym = some d := by
  cases h : storeLookup st sym <;> simp [storeContains, h]

theorem storeAppendObs_lookup_self (st : Store) (sym : String) (x : Observation) :
    storeLookup (storeAppendObs st sym x) sym
      = (storeLookup st sym).map (fun d => d.append x) := by
  induction st with
  | nil => rfl
  | cons p ps ih =>
    by_cases hp : p.1 = sym
    · simp [storeAppendObs, storeLookup, alistLookup, hp]
    · simp only [storeAppendObs, hp, if_false, storeLookup, alistLookup]
      exact ih

theorem storeAppendObs_lookup_ne (st : Store) {s sym : String} (x : Observation)
    (h : s ≠ sym) :
    storeLookup (storeAppendObs st s x) sym = storeLookup st sym := by
  induction st with
  | nil => rfl
  | cons p ps ih =>
    by_cases hp : p.1 = s
    · have hps : p.1 ≠ sym := by rw [hp]; exact h
      simp [storeAppendObs, storeLookup, alistLookup, hp, hps, h]
    · simp only [storeAppendObs, hp, if_false]
      by_cases hq : p.1 = sym
      · simp [storeLookup, alistLookup, hq]
      · simp only [storeLookup, alistLookup, hq, if_false]
        exact ih

/-! Lemmas about initialize_symbol_data. -/

theorem initSymbolData_of_contains (hs : String → List HistRow) (mp : Nat)
    (st : Store) (sym : String) (h : storeContains st sym = true) :
    initSymbolData hs mp st sym = st := by
  simp [initSymbolData, h]

theorem storeContains_initSymbolData (hs : String → List HistRow) (mp : Nat)
    (st : Store) (sym : String) :
    storeContains (initSymbolData hs mp st sym) sym = true := by
  cases h : storeContains st sym with
  | true => simp [initSymbolData, h]
  | false =>
    have hn : storeLookup st sym = none := (storeContains_false_iff st sym).mp h
    simp only [initSymbolData, h, Bool.false_eq_true, if_false]
    simp [storeContains, storeLookup, alistLookup_append_self _ hn]

theorem initSymbolData_lookup_fresh (hs : String → List HistRow) (mp : Nat)
    (st : Store) (sym : String) (h : storeContains st sym = false) :
    storeLookup (initSymbolData hs mp st sym) sym
      = some ⟨mp, lastN mp ((hs sym).map (histRowToObs sym))⟩ := by
  have hn : storeLookup st sym = none := (storeContains_false_iff st sym).mp h
  have hif : initSymbolData hs mp st sym = st ++ [(sym,
      match alistLookup (fetchHistoricalData hs [sym]) sym with
      | some pts => pts.foldl PyDeque.append ⟨mp, []⟩
      | none => ⟨mp, []⟩)] := by
    simp [initSymbolData, h]
  rw [hif]
  cases hh : (hs sym).isEmpty with
  | true =>
    have he : hs sym = [] := by
      cases hv : hs sym with
      | nil => rfl
      | cons r rs => rw [hv] at hh; simp at hh
    have hfd : fetchHistoricalData hs [sym] = [] := by
      simp [fetchHistoricalData, he]
    rw [hfd, he]
    simp only [alistLookup, List.map_nil]
    simp only [storeLookup] at hn ⊢
    rw [alistLookup_append_self _ hn]
    simp [lastN]
  | false =>
    have hfd : fetchHistoricalData hs [sym]
        = [(sym, (hs sym).map (histRowToObs sym))] := by
      simp only [fetchHistoricalData, List.foldl_cons, List.foldl_nil, hh,
        Bool.false_eq_true, if_false, List.nil_append]
    have hal : alistLookup [(sym, (hs sym).map (histRowToObs sym))] sym
        = some ((hs sym).map (histRowToObs sym)) := by
      simp [alistLookup]
    rw [hfd, hal]
    have hmatch : (match some ((hs sym).map (histRowToObs sym)) with
        | some pts => List.foldl PyDeque.append (⟨mp, []⟩ : PyDeque Observation) pts
        | none => (⟨mp, []⟩ : PyDeque Observation))
        = List.foldl PyDeque.append ⟨mp, []⟩ ((hs sym).map (histRowToObs sym)) := rfl
    rw [hmatch, foldl_pyDeque_append _ _ (by simp)]
    simp only [List.nil_append, storeLookup] at hn ⊢
    rw [alistLookup_append_self _ hn]

theorem initSymbolData_lookup_ne (hs : String → List HistRow) (mp : Nat)
    (st : Store) {s sym : String} (h : s ≠ sym) :
    storeLookup (initSymbolData hs mp st s) sym = storeLookup st sym := by
  cases hc : storeContains st s with
  | true => simp [initSymbolData, hc]
  | false =>
    simp only [initSymbolData, hc, Bool.false_eq_true, if_false]
    simp only [storeLookup]
    exact alistLookup_append_ne st _ h

/-! Lemmas about the two loops of update_price_data. -/

theorem initNewSymbols_cons (hs : String → List HistRow) (mp : Nat)
    (st : Store) (s : String) (ss : List String) :
    initNewSymbols hs mp st (s :: ss)
      = initNewSymbols hs mp
          (if storeContains st s then st else initSymbolData hs mp st s) ss := rfl

theorem initNewSymbols_append (hs : String → List HistRow) (mp : Nat)
    (st : Store) (a b : List String) :
    initNewSymbols hs mp st (a ++ b)
      = initNewSymbols hs mp (initNewSymbols hs mp st a) b := by
  simp only [initNewSymbols, List.foldl_append]

theorem initNewSymbols_lookup_not_mem (hs : String → List HistRow) (mp : Nat)
    (st : Store) {symbols : List String} {sym : String} (h : sym ∉ symbols) :
    storeLookup (initNewSymbols hs mp st symbols) sym = storeLookup st sym := by
  induction symbols generalizing st with
  | nil => rfl
  | cons s ss ih =>
    have hs1 : s ≠ sym := fun he => h (he ▸ List.mem_cons_self s ss)
    have h2 : sym ∉ ss := fun hm => h (List.mem_cons_of_mem s hm)
    rw [initNewSymbols_cons]
    rcases Bool.eq_false_or_eq_true (storeContains st s) with hc | hc
    · rw [if_pos (by rw [hc])]
      exact ih st h2
    · rw [if_neg (by rw [hc]; exact Bool.false_ne_true)]
      rw [ih _ h2]
      exact initSymbolData_lookup_ne hs mp st hs1

theorem initNewSymbols_of_all_contains (hs : String → List HistRow) (mp : Nat)
    (st : Store) {symbols : List String}
    (h : ∀ s ∈ symbols, storeContains st s = true) :
    initNewSymbols hs mp st symbols = st := by
  induction symbols with
  | nil => rfl
  | cons s ss ih =>
    rw [initNewSymbols_cons, if_pos (h s (List.mem_cons_self s ss))]
    exact ih (fun t ht => h t (List.mem_cons_of_mem s ht))

theorem initNewSymbols_lookup_fresh (hs : String → List HistRow) (mp : Nat)
    (st : Store) {pre post : List String} {sym : String}
    (hpre : sym ∉ pre) (hpost : sym ∉ post)
    (hfresh : storeContains st sym = false) :
    storeLookup (initNewSymbols hs mp st (pre ++ sym :: post)) sym
      = some ⟨mp, lastN mp ((hs sym).map (histRowToObs sym))⟩ := by
  rw [initNewSymbols_append]
  have hA : storeLookup (initNewSymbols hs mp st pre) sym = storeLookup st sym :=
    initNewSymbols_lookup_not_mem hs mp st hpre
  have hcA : storeContains (initNewSymbols hs mp st pre) sym = false := by
    rw [storeContains_false_iff, hA, ← storeContains_false_iff]
    exact hfresh
  rw [initNewSymbols_cons]
  rw [if_neg (by rw [hcA]; exact Bool.false_ne_true)]
  rw [initNewSymbols_lookup_not_mem _ _ _ hpost]
  exact initSymbolData_lookup_fresh hs mp _ sym hcA

/-! Lemmas about fetch_live_data. -/

theorem fetchLiveSymbol_fields (now : ℚ) (sym : String) (info : TickerInfo)
    {o : Observation} (h : fetchLiveSymbol now sym info = some o) :
    o.timestamp = now ∧ o.symbol = sym ∧ o.is_historical = false := by
  unfold fetchLiveSymbol at h
  rcases Bool.eq_false_or_eq_true
      (pyTruthy (pyOr info.currentPrice info.regularMarketPrice)) with hc | hc
  · rw [if_pos (by rw [hc])] at h
    obtain rfl : _ = o := Option.some.inj h
    exact ⟨rfl, rfl, rfl⟩
  · rw [if_neg (by rw [hc]; exact Bool.false_ne_true)] at h
    cases hl : info.intraday.getLast? with
    | none => rw [hl] at h; exact absurd h (by simp)
    | some row =>
      rw [hl] at h
      obtain rfl : _ = o := Option.some.inj h
      exact ⟨rfl, rfl, rfl⟩

theorem liveResult_fields (now : ℚ) (infoOf : String → Option TickerInfo)
    (sym : String) {o : Observation} (h : liveResult now infoOf sym = some o) :
    o.timestamp = now ∧ o.symbol = sym ∧ o.is_historical = false := by
  unfold liveResult at h
  cases hi : infoOf sym with
  | none => rw [hi] at h; exact absurd h (by simp)
  | some info =>
    rw [hi] at h
    exact fetchLiveSymbol_fields now sym info h

theorem fetchLiveData_eq_filterMap (now : ℚ)
    (infoOf : String → Option TickerInfo) (symbols : List String) :
    fetchLiveData now infoOf symbols
      = symbols.filterMap
          (fun s => (liveResult now infoOf s).map (fun o => (s, o))) := by
  have key : ∀ (syms : List String) (acc : List (String × Observation)),
      syms.foldl
        (fun acc sym =>
          match liveResult now infoOf sym with
          | some obs => acc ++ [(sym, obs)]
          | none => acc) acc
      = acc ++ syms.filterMap
          (fun s => (liveResult now infoOf s).map (fun o => (s, o))) := by
    intro syms
    induction syms with
    | nil => intro acc; simp
    | cons s ss ih =>
      intro acc
      rw [List.foldl_cons, List.filterMap_cons]
      cases hl : liveResult now infoOf s with
      | none => simp only [hl, Option.map_none]; exact ih acc
      | some o =>
        simp only [hl, Option.map_some]
        rw [ih (acc ++ [(s, o)])]
        simp
  exact key symbols []

theorem mem_fetchLiveData (now : ℚ) (infoOf : String → Option TickerInfo)
    (symbols : List String) {p : String × Observation}
    (h : p ∈ fetchLiveData now infoOf symbols) :
    p.1 ∈ symbols ∧ liveResult now infoOf p.1 = some p.2 := by
  rw [fetchLiveData_eq_filterMap] at h
  obtain ⟨s, hs1, hs2⟩ := List.mem_filterMap.mp h
  cases hl : liveResult now infoOf s with
  | none => rw [hl] at hs2; exact absurd hs2 (by simp)
  | some o =>
    rw [hl] at hs2
    obtain rfl : (s, o) = p := Option.some.inj hs2
    exact ⟨hs1, hl⟩

/-! Lemmas about the live-append loop. -/

theorem applyLive_cons (st : Store) (p : String × Observation)
    (prs : List (String × Observation)) :
    applyLive st (p :: prs)
      = applyLive (if storeContains st p.1 then storeAppendObs st p.1 p.2 else st)
          prs := rfl

theorem applyLive_append (st : Store) (a b : List (String × Observation)) :
    applyLive st (a ++ b) = applyLive (applyLive st a) b := by
  simp only [applyLive, List.foldl_append]

theorem applyLive_lookup_of_no_key (st : Store)
    {prs : List (String × Observation)} {sym : String}
    (h : ∀ p ∈ prs, p.1 ≠ sym) :
    storeLookup (applyLive st prs) sym = storeLookup st sym := by
  induction prs generalizing st with
  | nil => rfl
  | cons p ps ih =>
    have hp : p.1 ≠ sym := h p (List.mem_cons_self p ps)
    have h2 : ∀ q ∈ ps, q.1 ≠ sym := fun q hq => h q (List.mem_cons_of_mem p hq)
    rw [applyLive_cons]
    rcases Bool.eq_false_or_eq_true (storeContains st p.1) with hc | hc
    · rw [if_pos (by rw [hc])]
      rw [ih _ h2]
      exact storeAppendObs_lookup_ne st p.2 hp
    · rw [if_neg (by rw [hc]; exact Bool.false_ne_true)]
      exact ih st h2

theorem applyLive_lookup_single (st : Store)
    {pre post : List (String × Observation)} {sym : String} {x : Observation}
    (hpre : ∀ p ∈ pre, p.1 ≠ sym) (hpost : ∀ p ∈ post, p.1 ≠ sym)
    (hc : storeContains st sym = true) :
    storeLookup (applyLive st (pre ++ (sym, x) :: post)) sym
      = (storeLookup st sym).map (fun d => d.append x) := by
  rw [applyLive_append]
  have hA : storeLookup (applyLive st pre) sym = storeLookup st sym :=
    applyLive_lookup_of_no_key st hpre
  have hcA : storeContains (applyLive st pre) sym = true := by
    obtain ⟨d, hd⟩ := (storeContains_true_iff st sym).mp hc
    exact (storeContains_true_iff _ sym).mpr ⟨d, by rw [hA]; exact hd⟩
  rw [applyLive_cons]
  rw [if_pos (by rw [hcA])]
  rw [applyLive_lookup_of_no_key _ hpost]
  rw [storeAppendObs_lookup_self, hA]

theorem mem_nodup_split {sym : String} {symbols : List String}
    (hmem : sym ∈ symbols) (hnd : symbols.Nodup) :
    ∃ pre post, symbols = pre ++ sym :: post ∧ sym ∉ pre ∧ sym ∉ post := by
  obtain ⟨pre, post, rfl⟩ := List.append_of_mem hmem
  rw [List.nodup_append] at hnd
  refine ⟨pre, post, rfl, ?_, ?_⟩
  · intro hin
    exact hnd.2.2 hin (List.mem_cons_self sym post)
  · exact (List.nodup_cons.mp hnd.2.1).1

theorem filterMapLive_key_ne (now : ℚ) (infoOf : String → Option TickerInfo)
    {l : List String} {sym : String} (h : sym ∉ l) :
    ∀ p ∈ l.filterMap
        (fun s => (liveResult now infoOf s).map (fun o => (s, o))),
      p.1 ≠ sym := by
  intro p hp
  obtain ⟨s, hs1, hs2⟩ := List.mem_filterMap.mp hp
  cases hl : liveResult now infoOf s with
  | none => rw [hl] at hs2; exact absurd hs2 (by simp)
  | some o =>
    rw [hl] at hs2
    obtain rfl : (s, o) = p := Option.some.inj hs2
    intro he
    exact h (he ▸ hs1)

/-! Preservation of per-buffer symbol tags. -/

theorem pyDeque_append_items_subset {α : Type} (d : PyDeque α) (x : α) :
    (d.append x).items ⊆ d.items ++ [x] := by
  rw [pyDeque_append_eq]
  exact List.drop_subset _ _

theorem wellTagged_of_tail {p : String × PyDeque Observation}
    {ps : List (String × PyDeque Observation)} (hw : WellTagged (p :: ps)) :
    WellTagged ps :=
  fun q hq o ho => hw q (List.mem_cons_of_mem p hq) o ho

theorem wellTagged_storeAppendObs {st : Store} {sym : String} {x : Observation}
    (hw : WellTagged st) (hx : x.symbol = sym) :
    WellTagged (storeAppendObs st sym x) := by
  induction st with
  | nil => exact hw
  | cons p ps ih =>
    by_cases hp : p.1 = sym
    · rw [show storeAppendObs (p :: ps) sym x = (p.1, p.2.append x) :: ps by
        simp [storeAppendObs, hp]]
      intro q hq o ho
      rcases List.mem_cons.mp hq with rfl | hq2
      · rcases List.mem_append.mp (pyDeque_append_items_subset p.2 x ho) with h1 | h1
        · exact hw p (List.mem_cons_self p ps) o h1
        · rw [List.mem_singleton.mp h1, hx, hp]
      · exact hw q (List.mem_cons_of_mem p hq2) o ho
    · rw [show storeAppendObs (p :: ps) sym x = p :: storeAppendObs ps sym x by
        simp [storeAppendObs, hp]]
      intro q hq o ho
      rcases List.mem_cons.mp hq with rfl | hq2
      · exact hw q (List.mem_cons_self q ps) o ho
      · exact ih (wellTagged_of_tail hw) q hq2 o ho

theorem wellTagged_append_entry {st : Store} {sym : String}
    {d : PyDeque Observation} (hw : WellTagged st)
    (hd : ∀ o ∈ d.items, o.symbol = sym) :
    WellTagged (st ++ [(sym, d)]) := by
  intro p hp o ho
  rcases List.mem_append.mp hp with h1 | h1
  · exact hw p h1 o ho
  · rw [List.mem_singleton.mp h1] at ho ⊢
    exact hd o ho

theorem initSymbolData_fresh_eq (hs : String → List HistRow) (mp : Nat)
    (st : Store) (sym : String) (h : storeContains st sym = false) :
    initSymbolData hs mp st sym
      = st ++ [(sym, ⟨mp, lastN mp ((hs sym).map (histRowToObs sym))⟩)] := by
  have hif : initSymbolData hs mp st sym = st ++ [(sym,
      match alistLookup (fetchHistoricalData hs [sym]) sym with
      | some pts => pts.foldl PyDeque.append ⟨mp, []⟩
      | none => ⟨mp, []⟩)] := by
    simp [initSymbolData, h]
  rw [hif]
  cases hh : (hs sym).isEmpty with
  | true =>
    have he : hs sym = [] := by
      cases hv : hs sym with
      | nil => rfl
      | cons r rs => rw [hv] at hh; simp at hh
    have hfd : fetchHistoricalData hs [sym] = [] := by
      simp [fetchHistoricalData, he]
    rw [hfd, he]
    simp only [alistLookup, List.map_nil]
    have : lastN mp ([] : List Observation) = [] := by simp [lastN]
    rw [this]
  | false =>
    have hfd : fetchHistoricalData hs [sym]
        = [(sym, (hs sym).map (histRowToObs sym))] := by
      simp only [fetchHistoricalData, List.foldl_cons, List.foldl_nil, hh,
        Bool.false_eq_true, if_false, List.nil_append]
    have hal : alistLookup [(sym, (hs sym).map (histRowToObs sym))] sym
        = some ((hs sym).map (histRowToObs sym)) := by
      simp [alistLookup]
    rw [hfd, hal]
    have hmatch : (match some ((hs sym).map (histRowToObs sym)) with
        | some pts => List.foldl PyDeque.append (⟨mp, []⟩ : PyDeque Observation) pts
        | none => (⟨mp, []⟩ : PyDeque Observation))
        = List.foldl PyDeque.append ⟨mp, []⟩ ((hs sym).map (histRowToObs sym)) := rfl
    rw [hmatch, foldl_pyDeque_append _ _ (by simp)]
    simp

theorem wellTagged_initSymbolData (hs : String → List HistRow) (mp : Nat)
    {st : Store} (sym : String) (hw : WellTagged st) :
    WellTagged (initSymbolData hs mp st sym) := by
  rcases Bool.eq_false_or_eq_true (storeContains st sym) with hc | hc
  · rw [initSymbolData_of_contains hs mp st sym hc]
    exact hw
  · rw [initSymbolData_fresh_eq hs mp st sym hc]
    refine wellTagged_append_entry hw ?_
    intro o ho
    have hsub : o ∈ (hs sym).map (histRowToObs sym) :=
      List.drop_subset _ _ ho
    obtain ⟨r, _, rfl⟩ := List.mem_map.mp hsub
    rfl

theorem wellTagged_initNewSymbols (hs : String → List HistRow) (mp : Nat)
    {st : Store} (symbols : List String) (hw : WellTagged st) :
    WellTagged (initNewSymbols hs mp st symbols) := by
  induction symbols generalizing st with
  | nil => exact hw
  | cons s ss ih =>
    rw [initNewSymbols_cons]
    rcases Bool.eq_false_or_eq_true (storeContains st s) with hc | hc
    · rw [if_pos (by rw [hc])]
      exact ih hw
    · rw [if_neg (by rw [hc]; exact Bool.false_ne_true)]
      exact ih (wellTagged_initSymbolData hs mp s hw)

theorem wellTagged_applyLive {st : Store} {prs : List (String × Observation)}
    (hw : WellTagged st) (hkeys : ∀ p ∈ prs, p.2.symbol = p.1) :
    WellTagged (applyLive st prs) := by
  induction prs generalizing st with
  | nil => exact hw
  | cons p ps ih =>
    rw [applyLive_cons]
    have hk2 : ∀ q ∈ ps, q.2.symbol = q.1 :=
      fun q hq => hkeys q (List.mem_cons_of_mem p hq)
    rcases Bool.eq_false_or_eq_true (storeContains st p.1) with hc | hc
    · rw [if_pos (by rw [hc])]
      exact ih (wellTagged_storeAppendObs hw (hkeys p (List.mem_cons_self p ps))) hk2
    · rw [if_neg (by rw [hc]; exact Bool.false_ne_true)]
      exact ih hw hk2

theorem fetchLiveData_tag (now : ℚ) (infoOf : String → Option TickerInfo)
    (symbols : List String) :
    ∀ p ∈ fetchLiveData now infoOf symbols, p.2.symbol = p.1 := by
  intro p hp
  exact (liveResult_fields now infoOf p.1
    (mem_fetchLiveData now infoOf symbols hp).2).2.1

theorem wellTagged_updatePriceData (hs : String → List HistRow)
    (infoOf : String → Option TickerInfo) (now : ℚ) (mp : Nat)
    {st : Store} (symbols : List String) (hw : WellTagged st) :
    WellTagged (updatePriceData hs infoOf now mp st symbols) :=
  wellTagged_applyLive (wellTagged_initNewSymbols hs mp symbols hw)
    (fetchLiveData_tag now infoOf symbols)

theorem mem_getDataframe (st : Store) (o : Observation) :
    o ∈ getDataframe st ↔ ∃ p ∈ st, o ∈ p.2.items := by
  simp only [getDataframe, List.mem_flatten, List.mem_map]
  constructor
  · rintro ⟨l, ⟨p, hp, rfl⟩, ho⟩
    exact ⟨p, hp, ho⟩
  · rintro ⟨p, hp, ho⟩
    exact ⟨p.2.items, ⟨p, hp, rfl⟩, ho⟩

/-! The claims. -/

/-- C1: a symbol buffer created with capacity N (deque(maxlen=max_points))
never holds more than N elements after any sequence of appends, and once
more than N observations have been appended it holds exactly the most
recent N in arrival order — strict FIFO eviction of the oldest. -/
theorem c1_bounded_fifo_buffer (α : Type) (n : Nat) (xs : List α) :
    ((xs.foldl PyDeque.append ⟨n, []⟩).items.length ≤ n) ∧
    (n < xs.length → (xs.foldl PyDeque.append ⟨n, []⟩).items = lastN n xs) := by
  have h := foldl_pyDeque_append xs (⟨n, []⟩ : PyDeque α) (by simp)
  rw [h]
  constructor
  · simp only [List.nil_append, length_lastN]
    exact Nat.min_le_left _ _
  · intro _
    simp

/-- Witness for C1 at the spec's concrete scenario: capacity 3, appending
prices 100, 101, 102, 103 leaves the buffer holding 101, 102, 103. -/
theorem c1_bounded_fifo_buffer_witness :
    ((c1Input.foldl PyDeque.append ⟨3, []⟩).items.length ≤ 3) ∧
    (c1Input.foldl PyDeque.append ⟨3, []⟩).items = [101, 102, 103] := by
  have h := c1_bounded_fifo_buffer ℚ 3 c1Input
  refine ⟨h.1, ?_⟩
  rw [h.2 (by decide)]
  decide

/-- C2: initialize_symbol_data is a no-op for a symbol already present in
price_data, so historical backfill runs at most once per symbol: a second
backfill call, with the same or different historical data, leaves the
store exactly as it was after the first. -/
theorem c2_backfill_idempotent (h1 h2 : String → List HistRow) (mp : Nat)
    (st : Store) (sym : String) :
    (storeContains st sym = true → initSymbolData h1 mp st sym = st) ∧
    initSymbolData h2 mp (initSymbolData h1 mp st sym) sym
      = initSymbolData h1 mp st sym := by
  refine ⟨fun h => initSymbolData_of_contains h1 mp st sym h, ?_⟩
  exact initSymbolData_of_contains h2 mp _ sym
    (storeContains_initSymbolData h1 mp st sym)

/-- Witness for C2: a store already holding AAPL is untouched by another
backfill, and a double backfill from scratch equals a single one. -/
theorem c2_backfill_idempotent_witness :
    initSymbolData histOne 200 c2Store aaplSym = c2Store ∧
    initSymbolData histOne 200 (initSymbolData histNone 200 [] aaplSym) aaplSym
      = initSymbolData histNone 200 [] aaplSym := by
  constructor
  · exact (c2_backfill_idempotent histOne histOne 200 c2Store aaplSym).1 (by decide)
  · exact (c2_backfill_idempotent histNone histOne 200 [] aaplSym).2

/-- C3 counterexample: when the historical fetch returns nothing for
NODATA, initialize_symbol_data still inserts the symbol with an empty,
never-seeded buffer — so the symbol counts as completed without having
been seeded — and a later call with data available is a no-op: the failed
fetch is not retried on the next cycle. -/
theorem c3_counterexample :
    storeContains (initSymbolData histNone 200 [] nodataSym) nodataSym = true ∧
    storeLookup (initSymbolData histNone 200 [] nodataSym) nodataSym
      = some ⟨200, []⟩ ∧
    initSymbolData histOne 200
        (initSymbolData histNone 200 [] nodataSym) nodataSym
      = initSymbolData histNone 200 [] nodataSym := by
  decide

/-- C3 amended: a symbol is present in price_data — the code's only
backfill-completed tracking — exactly when initialize_symbol_data has run
for it at least once, regardless of whether any historical data was
obtained; a failed fetch leaves an empty buffer behind and is not retried,
because every later initialization call is a no-op. -/
theorem c3_amended_backfill_marking (hs : String → List HistRow) (mp : Nat)
    (st : Store) (sym : String) :
    storeContains (initSymbolData hs mp st sym) sym = true ∧
    (storeContains st sym = false → hs sym = [] →
      storeLookup (initSymbolData hs mp st sym) sym = some ⟨mp, []⟩) ∧
    (∀ hs2, initSymbolData hs2 mp (initSymbolData hs mp st sym) sym
      = initSymbolData hs mp st sym) := by
  refine ⟨storeContains_initSymbolData hs mp st sym, ?_, ?_⟩
  · intro h he
    rw [initSymbolData_lookup_fresh hs mp st sym h, he]
    simp [lastN]
  · intro hs2
    exact initSymbolData_of_contains hs2 mp _ sym
      (storeContains_initSymbolData hs mp st sym)

/-- Witness for C3's amended statement: a failing fetch for SPY still
marks the symbol present, with an empty buffer. -/
theorem c3_amended_backfill_marking_witness :
    storeContains (initSymbolData histNone 200 [] spySym) spySym = true ∧
    storeLookup (initSymbolData histNone 200 [] spySym) spySym
      = some ⟨200, []⟩ := by
  have h := c3_amended_backfill_marking histNone 200 [] spySym
  exact ⟨h.1, h.2.1 (by decide) (by decide)⟩

/-- C7: with auto-refresh enabled, a poll tick runs a fetch cycle iff the
elapsed time since last_update is at least refresh_interval (and resets
last_update exactly when it fetches); with it disabled nothing happens.
At interval 5s with the last refresh at 0, the checks at 2s and 4s fetch
nothing while the check at 6s triggers exactly one fetch. -/
theorem c7_elapsed_trigger (interval now last : ℚ) :
    ((autoRefreshTick true interval now last).1 = true ↔ interval ≤ now - last) ∧
    ((autoRefreshTick true interval now last).1 = false →
      (autoRefreshTick true interval now last).2 = last) ∧
    autoRefreshTick false interval now last = (false, last) ∧
    autoRefreshTick true 5 2 0 = (false, 0) ∧
    autoRefreshTick true 5 4 0 = (false, 0) ∧
    autoRefreshTick true 5 6 0 = (true, 6) := by
  refine ⟨?_, ?_, rfl, ?_, ?_, ?_⟩
  · by_cases h : interval ≤ now - last <;> simp [autoRefreshTick, h]
  · by_cases h : interval ≤ now - last <;> simp [autoRefreshTick, h]
  · norm_num [autoRefreshTick]
  · norm_num [autoRefreshTick]
  · norm_num [autoRefreshTick]

/-- Witness for C7: the 6-second check with a 5-second interval fetches. -/
theorem c7_elapsed_trigger_witness :
    (autoRefreshTick true 5 6 0).1 = true :=
  (c7_elapsed_trigger 5 6 0).1.mpr (by norm_num)

/-- C10: every live observation produced by one fetch_live_data call
carries the one wall-clock timestamp captured before the per-symbol loop,
on the direct-quote path and on the intraday-fallback path alike. -/
theorem c10_single_cycle_timestamp (now : ℚ)
    (infoOf : String → Option TickerInfo) (symbols : List String) :
    ∀ p ∈ fetchLiveData now infoOf symbols, p.2.timestamp = now := by
  intro p hp
  exact (liveResult_fields now infoOf p.1
    (mem_fetchLiveData now infoOf symbols hp).2).1

unseal Rat.add Rat.mul Rat.sub Rat.inv in
/-- Witness for C10: one symbol served by the quote path and one by the
intraday fallback, both stamped with the cycle time 7. -/
theorem c10_single_cycle_timestamp_witness :
    (goodSym, c10QuoteObs) ∈ fetchLiveData 7 c10InfoOf [goodSym, xSym] ∧
    (xSym, c10FbObs) ∈ fetchLiveData 7 c10InfoOf [goodSym, xSym] ∧
    c10QuoteObs.timestamp = 7 ∧ c10FbObs.timestamp = 7 := by
  refine ⟨by decide, by decide, ?_, ?_⟩
  · exact c10_single_cycle_timestamp 7 c10InfoOf [goodSym, xSym]
      (goodSym, c10QuoteObs) (by decide)
  · exact c10_single_cycle_timestamp 7 c10InfoOf [goodSym, xSym]
      (xSym, c10FbObs) (by decide)

unseal Rat.add Rat.mul Rat.sub Rat.inv in
/-- C4 (code bug): dropping TSLA from the tracked set and re-adding it
resets st.session_state.initialized_symbols — the code comments that this
forces a historical re-fetch — but the handler leaves price_data untouched
and update_price_data gates backfill only on price_data membership, which
is never cleared.  On the next refresh TSLA therefore keeps its stale
buffer: the old point survives, the freshly available historical row is
never fetched, and only one live point is appended. -/
theorem c4_readd_does_not_rebackfill :
    (symbolsChangedStep c4SS0 c4Store [aaplSym]).2 = c4Store ∧
    (symbolsChangedStep c4SS1 c4Store [aaplSym, tslaSym]).2 = c4Store ∧
    c4SS2.symbols = [aaplSym, tslaSym] ∧
    c4SS2.backfilledSymbols = [] ∧
    storeContains c4Store tslaSym = true ∧
    storeLookup (updatePriceData c4Hist c4Info 9 200 c4Store c4SS2.symbols)
        tslaSym
      = some ⟨200, [c4OldObs, c4LiveObs]⟩ ∧
    histRowToObs tslaSym ⟨5, 50, none⟩ ∉ [c4OldObs, c4LiveObs] := by
  decide

/-- C5: inside one update_price_data cycle, historical initialization of
every not-yet-buffered tracked symbol runs before the live fetch-and-append
loop, so a freshly tracked symbol ends the cycle with its backfilled
points first — each tagged historical — followed by the cycle's single live
point tagged live, in arrival order. -/
theorem c5_backfill_before_live (hs : String → List HistRow)
    (infoOf : String → Option TickerInfo) (now : ℚ) (mp : Nat) (st : Store)
    (symbols : List String) (sym : String) (lv : Observation)
    (hnd : symbols.Nodup) (hmem : sym ∈ symbols)
    (hfresh : storeContains st sym = false)
    (hlen : (hs sym).length < mp)
    (hlive : liveResult now infoOf sym = some lv) :
    storeLookup (updatePriceData hs infoOf now mp st symbols) sym
      = some ⟨mp, (hs sym).map (histRowToObs sym) ++ [lv]⟩ ∧
    (∀ o ∈ (hs sym).map (histRowToObs sym), o.is_historical = true) ∧
    lv.is_historical = false := by
  obtain ⟨pre, post, hsp, hpre, hpost⟩ := mem_nodup_split hmem hnd
  subst hsp
  refine ⟨?_, ?_, (liveResult_fields now infoOf sym hlive).2.2⟩
  · unfold updatePriceData
    have hinit := initNewSymbols_lookup_fresh hs mp st hpre hpost hfresh
    have hcontains : storeContains
        (initNewSymbols hs mp st (pre ++ sym :: post)) sym = true := by
      rw [storeContains_true_iff]
      exact ⟨_, hinit⟩
    have hsplit : List.filterMap
          (fun s => (liveResult now infoOf s).map (fun o => (s, o))) (sym :: post)
        = (sym, lv) :: List.filterMap
            (fun s => (liveResult now infoOf s).map (fun o => (s, o))) post := by
      simp [List.filterMap_cons, hlive]
    rw [fetchLiveData_eq_filterMap, List.filterMap_append, hsplit]
    rw [applyLive_lookup_single _ (filterMapLive_key_ne now infoOf hpre)
      (filterMapLive_key_ne now infoOf hpost) hcontains]
    rw [hinit]
    have hlastN : lastN mp ((hs sym).map (histRowToObs sym))
        = (hs sym).map (histRowToObs sym) :=
      lastN_of_length_le (by rw [List.length_map]; omega)
    rw [hlastN]
    simp only [Option.map_some', pyDeque_append_eq]
    have hlast2 : lastN mp ((hs sym).map (histRowToObs sym) ++ [lv])
        = (hs sym).map (histRowToObs sym) ++ [lv] :=
      lastN_of_length_le (by
        rw [List.length_append, List.length_map]
        simp
        omega)
    rw [hlast2]
  · intro o ho
    obtain ⟨r, _, rfl⟩ := List.mem_map.mp ho
    rfl

unseal Rat.add Rat.mul Rat.sub Rat.inv in
/-- Witness for C5: SPY freshly tracked, five historical points then one
live point; the buffer ends with six entries, historical first. -/
theorem c5_backfill_before_live_witness :
    storeLookup (updatePriceData c5Hist c5InfoOf 6 200 [] [spySym]) spySym
      = some ⟨200, (c5Hist spySym).map (histRowToObs spySym) ++ [c5LiveObs]⟩ ∧
    (∀ o ∈ (c5Hist spySym).map (histRowToObs spySym), o.is_historical = true) ∧
    c5LiveObs.is_historical = false ∧
    ((c5Hist spySym).map (histRowToObs spySym)).length = 5 := by
  have h := c5_backfill_before_live c5Hist c5InfoOf 6 200 [] [spySym] spySym
    c5LiveObs (by decide) (by decide) (by decide) (by decide) (by decide)
  exact ⟨h.1, h.2.1, h.2.2, by decide⟩

/-- C6: per-symbol failure isolation in one refresh cycle over already
buffered symbols: a symbol whose live fetch succeeds gains exactly the one
fetched observation (appended to its deque), a symbol whose fetch fails
keeps its buffer unchanged with no partial entry, and the cycle always
completes, setting last_update to the cycle time — even if every symbol
failed. -/
theorem c6_per_symbol_isolation (hs : String → List HistRow)
    (infoOf : String → Option TickerInfo) (now : ℚ) (mp : Nat) (st : Store)
    (symbols : List String) (ss : SessionState) (sym : String)
    (hnd : symbols.Nodup) (hmem : sym ∈ symbols)
    (hinit : ∀ s ∈ symbols, storeContains st s = true) :
    (∀ x, liveResult now infoOf sym = some x →
      storeLookup (updatePriceData hs infoOf now mp st symbols) sym
        = (storeLookup st sym).map (fun d => d.append x)) ∧
    (liveResult now infoOf sym = none →
      storeLookup (updatePriceData hs infoOf now mp st symbols) sym
        = storeLookup st sym) ∧
    (refreshCycle hs infoOf now mp st symbols ss).2.lastUpdate = now := by
  obtain ⟨pre, post, hsp, hpre, hpost⟩ := mem_nodup_split hmem hnd
  subst hsp
  have hstore : initNewSymbols hs mp st (pre ++ sym :: post) = st :=
    initNewSymbols_of_all_contains hs mp st hinit
  have hcontains : storeContains st sym = true := hinit sym hmem
  refine ⟨?_, ?_, rfl⟩
  · intro x hx
    unfold updatePriceData
    have hsplit : List.filterMap
          (fun s => (liveResult now infoOf s).map (fun o => (s, o))) (sym :: post)
        = (sym, x) :: List.filterMap
            (fun s => (liveResult now infoOf s).map (fun o => (s, o))) post := by
      simp [List.filterMap_cons, hx]
    rw [hstore, fetchLiveData_eq_filterMap, List.filterMap_append, hsplit]
    exact applyLive_lookup_single st (filterMapLive_key_ne now infoOf hpre)
      (filterMapLive_key_ne now infoOf hpost) hcontains
  · intro hx
    unfold updatePriceData
    have hsplit : List.filterMap
          (fun s => (liveResult now infoOf s).map (fun o => (s, o))) (sym :: post)
        = List.filterMap
            (fun s => (liveResult now infoOf s).map (fun o => (s, o))) post := by
      simp [List.filterMap_cons, hx]
    rw [hstore, fetchLiveData_eq_filterMap, List.filterMap_append, hsplit]
    refine applyLive_lookup_of_no_key st ?_
    intro p hp
    rcases List.mem_append.mp hp with h1 | h1
    · exact filterMapLive_key_ne now infoOf hpre p h1
    · exact filterMapLive_key_ne now infoOf hpost p h1

unseal Rat.add Rat.mul Rat.sub Rat.inv in
/-- Witness for C6: in one cycle the fetch succeeds for GOOD and raises
for BAD; GOOD's buffer gains exactly the fetched point, BAD's buffer is
untouched, and last_update becomes the cycle time 3. -/
theorem c6_per_symbol_isolation_witness :
    storeLookup (updatePriceData histNone c6InfoOf 3 200 c6Store
        [goodSym, badSym]) goodSym
      = some ⟨200, [⟨goodSym, 0, 1, 0, true⟩, ⟨goodSym, 3, 10, 0, false⟩]⟩ ∧
    storeLookup (updatePriceData histNone c6InfoOf 3 200 c6Store
        [goodSym, badSym]) badSym
      = some ⟨200, [⟨badSym, 0, 2, 0, true⟩]⟩ ∧
    (refreshCycle histNone c6InfoOf 3 200 c6Store [goodSym, badSym]
        c6SS).2.lastUpdate = 3 := by
  have hg := c6_per_symbol_isolation histNone c6InfoOf 3 200 c6Store
    [goodSym, badSym] c6SS goodSym (by decide) (by decide) (by decide)
  have hb := c6_per_symbol_isolation histNone c6InfoOf 3 200 c6Store
    [goodSym, badSym] c6SS badSym (by decide) (by decide) (by decide)
  refine ⟨?_, ?_, hg.2.2⟩
  · rw [hg.1 (⟨goodSym, 3, 10, 0, false⟩) (by decide)]
    decide
  · rw [hb.2.1 (by decide)]
    decide

/-- C8: get_dataframe returns exactly the flattened multi-symbol buffer
contents — an observation is in the snapshot iff it sits in some symbol's
buffer — while leaving the store unchanged; under the tag invariant every
returned row carries the symbol of the buffer it came from, and
update_price_data preserves that invariant, so no cross-symbol
contamination can arise. -/
theorem c8_snapshot_union (st : Store) :
    (getDataframeS st).2 = st ∧
    (∀ o : Observation, o ∈ (getDataframeS st).1 ↔ ∃ p ∈ st, o ∈ p.2.items) ∧
    (WellTagged st → ∀ o ∈ (getDataframeS st).1,
      ∃ p ∈ st, p.1 = o.symbol ∧ o ∈ p.2.items) ∧
    (∀ hs infoOf now mp symbols, WellTagged st →
      WellTagged (updatePriceData hs infoOf now mp st symbols)) := by
  refine ⟨rfl, fun o => mem_getDataframe st o, ?_, ?_⟩
  · intro hw o ho
    obtain ⟨p, hp, hitem⟩ := (mem_getDataframe st o).mp ho
    exact ⟨p, hp, (hw p hp o hitem).symm, hitem⟩
  · intro hs infoOf now mp symbols hw
    exact wellTagged_updatePriceData hs infoOf now mp symbols hw

unseal Rat.add Rat.mul Rat.sub Rat.inv in
/-- Witness for C8 on a two-symbol store: the snapshot leaves the store
unchanged, membership matches the buffers, and an update keeps the store
well-tagged. -/
theorem c8_snapshot_union_witness :
    (getDataframeS c8Store).2 = c8Store ∧
    (c8Obs ∈ (getDataframeS c8Store).1 ↔ ∃ p ∈ c8Store, c8Obs ∈ p.2.items) ∧
    WellTagged (updatePriceData histNone c6InfoOf 1 200 c8Store [goodSym]) := by
  have h := c8_snapshot_union c8Store
  exact ⟨h.1, h.2.1 c8Obs,
    h.2.2.2 histNone c6InfoOf 1 200 [goodSym] (by decide)⟩

unseal Rat.add Rat.mul Rat.sub Rat.inv in
/-- C9 counterexample: a currentPrice of 0.001 is truthy, so the quote
path uses the currentPrice field, yet the recorded price — round(0.001, 2)
— is exactly 0.0, and update_price_data stores that 0.0 in the buffer: a
live price of exactly 0.0 can be recorded from the currentPrice field. -/
theorem c9_counterexample :
    pyTruthy c9Info.currentPrice = true ∧
    (fetchLiveSymbol 0 xSym c9Info).map Observation.price = some 0 ∧
    storeLookup (updatePriceData histNone c9InfoOf 0 200 [] [xSym]) xSym
      = some ⟨200, [⟨xSym, 0, 0, 0, false⟩]⟩ := by
  decide

/-- C9 amended: None and 0 are falsy and treated as unavailable; the
fallback order is currentPrice, then regularMarketPrice, then the last
intraday close; when every fallback yields nothing the symbol gets no
entry for the cycle; and the raw quote value selected from currentPrice or
regularMarketPrice is never exactly 0 — although the recorded price is
that value rounded to two decimals and can therefore be exactly 0.0 when
the quote is nonzero but smaller than half a cent. -/
theorem c9_amended_fallback_chain (now : ℚ) (sym : String) (info : TickerInfo) :
    (pyTruthy none = false ∧ pyTruthy (some 0) = false) ∧
    (pyTruthy info.currentPrice = true →
      fetchLiveSymbol now sym info
        = some ⟨sym, now, round2 (info.currentPrice.getD 0),
            info.volume.getD 0, false⟩) ∧
    (pyTruthy info.currentPrice = false →
      pyTruthy info.regularMarketPrice = true →
      fetchLiveSymbol now sym info
        = some ⟨sym, now, round2 (info.regularMarketPrice.getD 0),
            info.volume.getD 0, false⟩) ∧
    (pyTruthy info.currentPrice = false →
      pyTruthy info.regularMarketPrice = false →
      info.intraday = [] → fetchLiveSymbol now sym info = none) ∧
    (pyTruthy info.currentPrice = false →
      pyTruthy info.regularMarketPrice = false →
      ∀ row, info.intraday.getLast? = some row →
        fetchLiveSymbol now sym info
          = some ⟨sym, now, round2 row.close, row.volume.getD 0, false⟩) ∧
    (∀ q, pyOr info.currentPrice info.regularMarketPrice = some q →
      pyTruthy (pyOr info.currentPrice info.regularMarketPrice) = true →
      q ≠ 0) := by
  refine ⟨⟨rfl, by simp [pyTruthy]⟩, ?_, ?_, ?_, ?_, ?_⟩
  · intro h
    simp [fetchLiveSymbol, pyOr, h]
  · intro h1 h2
    simp [fetchLiveSymbol, pyOr, h1, h2]
  · intro h1 h2 he
    simp [fetchLiveSymbol, pyOr, h1, h2, he]
  · intro h1 h2 row hrow
    simp [fetchLiveSymbol, pyOr, h1, h2, hrow]
  · intro q hq ht
    rw [hq] at ht
    exact of_decide_eq_true ht

unseal Rat.add Rat.mul Rat.sub Rat.inv in
/-- Witness for C9's amended statement: currentPrice exactly 0 is skipped
and the regularMarketPrice of 5 is recorded. -/
theorem c9_amended_fallback_chain_witness :
    fetchLiveSymbol 1 spySym c9WInfo = some ⟨spySym, 1, 5, 0, false⟩ := by
  rw [(c9_amended_fallback_chain 1 spySym c9WInfo).2.2.1 (by decide) (by decide)]
  decide

end Streamdash
